import Mathlib

/-!
Shallow embedding of the webmapping-tutorial map component
(`src/components/map/Map.jsx`): feature classification, style resolution,
coordinate reprojection, legend lifecycle.

JavaScript values relevant to the property-bag pipeline are modeled by
`JSVal`; numbers are rationals plus NaN (`JSNum`).  Hex/exponent/Infinity
numeric string forms and array-valued properties are outside the modeled
universe; every claim below is decided on values the component actually
handles (numbers, strings, null, undefined, plain objects).
-/

namespace WebMap

/-- JavaScript numbers: a rational value or NaN. -/
inductive JSNum where
  | val (q : ℚ)
  | nan
deriving DecidableEq

/-- JavaScript values appearing in GeoJSON property bags. -/
inductive JSVal where
  | undefined
  | null
  | bool (b : Bool)
  | num (n : JSNum)
  | str (s : String)
  | obj (fields : List (String × JSVal))

/-- JavaScript truthiness. -/
def truthy : JSVal → Bool
  | .undefined => false
  | .null => false
  | .bool b => b
  | .num (.val q) => decide (q ≠ 0)
  | .num .nan => false
  | .str s => decide (s ≠ "")
  | .obj _ => true

/-- Property read `v[k]`.  On a plain object this is own-field lookup; on a
primitive it yields `undefined`; `null`/`undefined` receivers also map to
`undefined` here, which coincides with the `?.` reads used in the source
(the only reads this model is applied to are guarded so that the receiver
is never `null`/`undefined` with a plain `.`). -/
def getOwn (v : JSVal) (k : String) : JSVal :=
  match v with
  | .obj fields =>
    match fields.lookup k with
    | some w => w
    | none => .undefined
  | _ => .undefined

/-- `a || b`. -/
def jsOr (a b : JSVal) : JSVal := if truthy a then a else b

/-- `a ?? b`. -/
def nullish (a b : JSVal) : JSVal :=
  match a with
  | .undefined | .null => b
  | _ => a

/-- `const getProps = (feature) => feature?.properties || {};` -/
def getProps (feature : JSVal) : JSVal :=
  let p := getOwn feature "properties"
  if truthy p then p else .obj []

/-- Digit parsing used by the `Number(...)` string coercion model. -/
def parseNatDigits (cs : List Char) : Option ℕ :=
  cs.foldl
    (fun acc c =>
      match acc with
      | none => none
      | some a => if c.isDigit then some (a * 10 + (c.toNat - 48)) else none)
    (some 0)

/-- Unsigned decimal literal: `123`, `123.45`, `.45`, `123.`. -/
def parseUnsignedDec (cs : List Char) : Option ℚ :=
  let intPart := cs.takeWhile (·.isDigit)
  let rest := cs.dropWhile (·.isDigit)
  match rest with
  | [] =>
    if intPart.isEmpty then none
    else (parseNatDigits intPart).map (fun n => (n : ℚ))
  | '.' :: frac =>
    if frac.all (·.isDigit) then
      if intPart.isEmpty && frac.isEmpty then none
      else
        match parseNatDigits intPart, parseNatDigits frac with
        | some ip, some fp => some ((ip : ℚ) + (fp : ℚ) / (10 : ℚ) ^ frac.length)
        | _, _ => none
    else none
  | _ => none

/-- JS whitespace characters stripped by `Number(...)` (the usual ASCII ones
suffice for the modeled universe). -/
def jsWhitespace (c : Char) : Bool :=
  c == ' ' || c == '\t' || c == '\n' || c == '\r'

/-- Strip leading and trailing whitespace from a character list. -/
def trimList (cs : List Char) : List Char :=
  ((cs.dropWhile jsWhitespace).reverse.dropWhile jsWhitespace).reverse

/-- `Number(s)` for a string, modeled for decimal literals (the whitespace
trim, the empty-string-to-0 rule, optional sign, optional fraction); any
other form coerces to NaN. -/
def strToNum (s : String) : JSNum :=
  match trimList s.data with
  | [] => .val 0
  | '-' :: r =>
    match parseUnsignedDec r with
    | some q => .val (-q)
    | none => .nan
  | '+' :: r =>
    match parseUnsignedDec r with
    | some q => .val q
    | none => .nan
  | r =>
    match parseUnsignedDec r with
    | some q => .val q
    | none => .nan

/-- `Number(v)`: ToNumber coercion.  A plain object coerces through
`"[object Object]"` to NaN. -/
def toNumber : JSVal → JSNum
  | .undefined => .nan
  | .null => .val 0
  | .bool b => .val (if b then 1 else 0)
  | .num n => n
  | .str s => strToNum s
  | .obj _ => .nan

/-- `props.Cluster || props[" cl name"] || "Unknown"` -/
def getClusterName (feature : JSVal) : JSVal :=
  let props := getProps feature
  jsOr (getOwn props "Cluster") (jsOr (getOwn props " cl name") (.str "Unknown"))

/-- `Number(props.Milestone ?? 0)` -/
def getMilestone (feature : JSVal) : JSNum :=
  let props := getProps feature
  toNumber (nullish (getOwn props "Milestone") (.num (.val 0)))

/-- `props.LITHCODE || "default"` -/
def getLithCode (feature : JSVal) : JSVal :=
  let props := getProps feature
  jsOr (getOwn props "LITHCODE") (.str "default")

/-- One `{label, color}` entry of a style lookup table. -/
structure ColorEntry where
  label : String
  color : String
deriving DecidableEq

/-- The `milestoneColors` table, in `Object.values` order (integer-like keys
ascending). -/
def milestoneColorsEntries : List (ℚ × ColorEntry) :=
  [(0, ⟨"Unopened", "#BCCFB4"⟩),
   (1, ⟨"Milestone 1", "#69A761"⟩),
   (2, ⟨"Milestone 2", "#27823B"⟩),
   (3, ⟨"Milestone 3", "#09622A"⟩)]

/-- `milestoneColors[m]`: the numeric classification is coerced to a property
key; only the keys 0,1,2,3 are present (NaN and non-integer values miss). -/
def milestoneColors (m : JSNum) : Option ColorEntry :=
  match m with
  | .val q =>
    if q = 0 then some ⟨"Unopened", "#BCCFB4"⟩
    else if q = 1 then some ⟨"Milestone 1", "#69A761"⟩
    else if q = 2 then some ⟨"Milestone 2", "#27823B"⟩
    else if q = 3 then some ⟨"Milestone 3", "#09622A"⟩
    else none
  | .nan => none

/-- The `"default"` entry of `geologicalColors`. -/
def geologicalDefault : ColorEntry := ⟨"Other", "#118AB2"⟩

/-- The `geologicalColors` table, in `Object.values` (insertion) order. -/
def geologicalColorsEntries : List (String × ColorEntry) :=
  [("MC", ⟨"Metamorphic complex", "#E63946"⟩),
   ("GR", ⟨"Granite", "#F77F00"⟩),
   ("SED", ⟨"Sedimentary", "#FCBF49"⟩),
   ("VOL", ⟨"Volcanic", "#06A77D"⟩),
   ("default", geologicalDefault)]

/-- `geologicalColors[lithCode]`: a string key looks up the table; any
non-string classification coerces to a key that is not present. -/
def geologicalColors (k : JSVal) : Option ColorEntry :=
  match k with
  | .str s =>
    if s = "MC" then some ⟨"Metamorphic complex", "#E63946"⟩
    else if s = "GR" then some ⟨"Granite", "#F77F00"⟩
    else if s = "SED" then some ⟨"Sedimentary", "#FCBF49"⟩
    else if s = "VOL" then some ⟨"Volcanic", "#06A77D"⟩
    else if s = "default" then some geologicalDefault
    else none
  | _ => none

/-- The style object returned by both resolvers. -/
structure Style where
  color : String
  fillColor : String
  weight : ℚ
  fillOpacity : ℚ
deriving DecidableEq

/-- `geojsonColors` (Map.jsx): `milestoneColors[milestone]?.color || "#374151"`.
Every table color is a nonempty string, so the `||` is `Option.getD`. -/
def geojsonColors (feature : JSVal) : Style :=
  let milestone := getMilestone feature
  { color := "#000"
    fillColor := ((milestoneColors milestone).map ColorEntry.color).getD "#374151"
    weight := 2
    fillOpacity := 7/10 }

/-- `geologicalLayerColors`:
`geologicalColors[lithCode]?.color || geologicalColors["default"].color`. -/
def geologicalLayerColors (feature : JSVal) : Style :=
  let lithCode := getLithCode feature
  { color := "#000"
    fillColor := ((geologicalColors lithCode).map ColorEntry.color).getD geologicalDefault.color
    weight := 2
    fillOpacity := 7/10 }

/-- `milestoneColors[milestone]?.label || "Unknown"` (from `onEachFeature`). -/
def milestoneLabel (feature : JSVal) : String :=
  ((milestoneColors (getMilestone feature)).map ColorEntry.label).getD "Unknown"

/-- Whether a property bag has the key as an own property. -/
def hasOwn (v : JSVal) (k : String) : Bool :=
  match v with
  | .obj fields => (fields.lookup k).isSome
  | _ => false

/-- `geojsonColors` of the earliest component version (`part_000`): same
shape, but fill opacity 1 and a default fill color missing the `#`. -/
def geojsonColorsV1 (feature : JSVal) : Style :=
  let milestone := getMilestone feature
  { color := "#000"
    fillColor := ((milestoneColors milestone).map ColorEntry.color).getD "374151"
    weight := 2
    fillOpacity := 1 }

/-! ### Legend lifecycle model -/

/-- The two values of the `activeLayer` state. -/
inductive Layer where
  | clusters
  | geological
deriving DecidableEq

/-- The rendered content of a legend control: heading plus the
`Object.values` of the active lookup table, in order. -/
structure LegendContent where
  heading : String
  items : List ColorEntry
deriving DecidableEq

/-- `legend.onAdd` content for each active layer: "Milestones" with all
`milestoneColors` values, or "Geology" with all `geologicalColors` values. -/
def legendFor : Layer → LegendContent
  | .clusters => ⟨"Milestones", milestoneColorsEntries.map Prod.snd⟩
  | .geological => ⟨"Geology", geologicalColorsEntries.map Prod.snd⟩

/-- The Leaflet map as far as legend controls are concerned: the attached
controls in attachment order, each with an identity. -/
structure MapState where
  controls : List (ℕ × LegendContent)
  nextId : ℕ
deriving DecidableEq

/-- `legend.addTo(map)`: attach a fresh control, returning its identity. -/
def addControl (m : MapState) (c : LegendContent) : MapState × ℕ :=
  (⟨m.controls ++ [(m.nextId, c)], m.nextId + 1⟩, m.nextId)

/-- `legend.remove()`: detach the control with the given identity. -/
def removeControl (m : MapState) (id : ℕ) : MapState :=
  ⟨m.controls.filter (fun p => p.1 != id), m.nextId⟩

/-- Component state for the legend effect: the active layer, the map, and
the cleanup registered by the last effect run (the identity of the legend
that run attached). -/
structure CompState where
  active : Layer
  map : MapState
  legendId : Option ℕ
deriving DecidableEq

/-- The body of the legend `useEffect`: build a legend from the active
layer's table, attach it, and register its removal as the cleanup. -/
def runLegendEffect (s : CompState) : CompState :=
  let (m, id) := addControl s.map (legendFor s.active)
  { s with map := m, legendId := some id }

/-- React runs the previous effect run's cleanup before re-running it. -/
def runCleanup (s : CompState) : CompState :=
  match s.legendId with
  | some id => { s with map := removeControl s.map id, legendId := none }
  | none => s

/-- A render with `activeLayer` set to `l`: the effect's dependency array
`[activeLayer, milestoneColors]` changes on every render (`milestoneColors`
is a fresh object), so React runs the old cleanup and then the effect. -/
def setLayer (s : CompState) (l : Layer) : CompState :=
  runLegendEffect (runCleanup { s with active := l })

/-- The mounted component: map present (`mapRef.current` set), initial
active layer "clusters", after the first effect run. -/
def mountedState : CompState :=
  runLegendEffect { active := .clusters, map := ⟨[], 0⟩, legendId := none }

/-- Invariant: the registered cleanup names the single attached control,
whose content is the legend for the current active layer. -/
def LegendInv (s : CompState) : Prop :=
  ∃ id, s.legendId = some id ∧ s.map.controls = [(id, legendFor s.active)]

/-! ### Coordinate reprojection (pure tree model) -/

/-- A JSON coordinate tree as walked by `transformCoordinates`: numbers or
arrays.  The projection itself (`proj4("EPSG:32733", "EPSG:4326", ·)`) is
an abstract parameter `proj` on coordinate pairs. -/
inductive CoordTree where
  | num (q : ℚ)
  | arr (es : List CoordTree)

/-- Shape of a coordinate tree: the nesting structure with numeric leaves
erased. -/
inductive Shape where
  | num
  | arr (es : List Shape)

mutual

/-- `transformCoordinates` (Map.jsx lines 39-48): if
`typeof coords[0] === "number"` the node is a coordinate pair; `proj4`
reads its first two entries and the destructured result is returned as a
fresh `[lon, lat]` array; otherwise the node is `coords.map(...)`.
`none` models a thrown TypeError (`.map` on a number) or a `proj4`
failure on a malformed pair. -/
def transformCoordinates (proj : ℚ × ℚ → ℚ × ℚ) : CoordTree → Option CoordTree
  | .num _ => none
  | .arr (.num x :: rest) =>
    match rest with
    | .num y :: _ => some (.arr [.num (proj (x, y)).1, .num (proj (x, y)).2])
    | _ => none
  | .arr es => (transformCoordinatesList proj es).map .arr

def transformCoordinatesList (proj : ℚ × ℚ → ℚ × ℚ) :
    List CoordTree → Option (List CoordTree)
  | [] => some []
  | c :: cs =>
    match transformCoordinates proj c, transformCoordinatesList proj cs with
    | some c2, some cs2 => some (c2 :: cs2)
    | _, _ => none

end

mutual

/-- The Reprojector as the spec states it: a structure of identical
nesting with every leaf pair `[x, y]` replaced by the projection of that
pair alone. -/
def specMapLeaves (proj : ℚ × ℚ → ℚ × ℚ) : CoordTree → CoordTree
  | .num q => .num q
  | .arr [.num x, .num y] => .arr [.num (proj (x, y)).1, .num (proj (x, y)).2]
  | .arr es => .arr (specMapLeavesList proj es)

def specMapLeavesList (proj : ℚ × ℚ → ℚ × ℚ) : List CoordTree → List CoordTree
  | [] => []
  | c :: cs => specMapLeaves proj c :: specMapLeavesList proj cs

end

mutual

/-- Valid nested coordinate structures: a leaf `[x, y]` pair of two
numbers, or arbitrarily nested arrays of such structures (GeoJSON
Polygon/MultiPolygon shapes). -/
def isValidCoords : CoordTree → Bool
  | .num _ => false
  | .arr [.num _, .num _] => true
  | .arr es => isValidCoordsList es

def isValidCoordsList : List CoordTree → Bool
  | [] => true
  | c :: cs => isValidCoords c && isValidCoordsList cs

end

mutual

/-- The nesting shape of a tree. -/
def shapeOf : CoordTree → Shape
  | .num _ => .num
  | .arr es => .arr (shapeOfList es)

def shapeOfList : List CoordTree → List Shape
  | [] => []
  | c :: cs => shapeOf c :: shapeOfList cs

end

mutual

/-- The leaf coordinate pairs of a tree, left to right. -/
def leavesOf : CoordTree → List (ℚ × ℚ)
  | .num _ => []
  | .arr [.num x, .num y] => [(x, y)]
  | .arr es => leavesOfList es

def leavesOfList : List CoordTree → List (ℚ × ℚ)
  | [] => []
  | c :: cs => leavesOf c ++ leavesOfList cs

end

/-! ### Heap model for transformGeoJSON (the mutation claim) -/

/-- Pure JSON trees: the output of `JSON.stringify` / input of
`JSON.parse`. -/
inductive PJson where
  | null
  | bool (b : Bool)
  | num (q : ℚ)
  | str (s : String)
  | arr (es : List PJson)
  | obj (fs : List (String × PJson))

/-- A JavaScript runtime value in the heap model: a primitive or a
reference to a heap object.  Object identity (aliasing) is explicit, which
is what makes an in-place mutation observable. -/
inductive HVal where
  | undefined
  | null
  | bool (b : Bool)
  | num (q : ℚ)
  | str (s : String)
  | ref (a : ℕ)
deriving DecidableEq

/-- A heap object: an array or a plain object. -/
inductive HNode where
  | arrN (es : List HVal)
  | objN (fs : List (String × HVal))
deriving DecidableEq

/-- The heap: objects addressed by list index; allocation appends. -/
structure Heap where
  nodes : List HNode
deriving DecidableEq

def Heap.get? (h : Heap) (a : ℕ) : Option HNode := h.nodes[a]?

def Heap.alloc (h : Heap) (n : HNode) : Heap × ℕ :=
  (⟨h.nodes ++ [n]⟩, h.nodes.length)

def Heap.set (h : Heap) (a : ℕ) (n : HNode) : Heap := ⟨h.nodes.set a n⟩

/-- Read a list of values into pure JSON with the given element reader. -/
def readList (f : HVal → Option PJson) : List HVal → Option (List PJson)
  | [] => some []
  | v :: vs =>
    match f v, readList f vs with
    | some p, some ps => some (p :: ps)
    | _, _ => none

/-- Read an object's fields into pure JSON with the given reader. -/
def readFields (f : HVal → Option PJson) :
    List (String × HVal) → Option (List (String × PJson))
  | [] => some []
  | (k, v) :: vs =>
    match f v, readFields f vs with
    | some p, some ps => some ((k, p) :: ps)
    | _, _ => none

/-- Deep read of a runtime value into pure JSON: the composition
`JSON.parse(JSON.stringify(v))` reads exactly this tree.  Fuel bounds the
depth; `none` models a stringify/parse failure (a cyclic document, a
dangling reference, or an `undefined` root, for which `JSON.parse` of the
stringify output throws). -/
def readVal (h : Heap) : ℕ → HVal → Option PJson
  | _, .undefined => none
  | _, .null => some .null
  | _, .bool b => some (.bool b)
  | _, .num q => some (.num q)
  | _, .str s => some (.str s)
  | 0, .ref _ => none
  | fuel+1, .ref a =>
    match h.get? a with
    | some (.arrN es) => (readList (readVal h fuel) es).map .arr
    | some (.objN fs) => (readFields (readVal h fuel) fs).map .obj
    | none => none

mutual

/-- `JSON.parse`: materialize a pure JSON tree as freshly allocated heap
objects. -/
def allocPJson (h : Heap) : PJson → Heap × HVal
  | .null => (h, .null)
  | .bool b => (h, .bool b)
  | .num q => (h, .num q)
  | .str s => (h, .str s)
  | .arr es =>
    let r := allocPJsonList h es
    let r2 := r.1.alloc (.arrN r.2)
    (r2.1, .ref r2.2)
  | .obj fs =>
    let r := allocPJsonFields h fs
    let r2 := r.1.alloc (.objN r.2)
    (r2.1, .ref r2.2)

def allocPJsonList (h : Heap) : List PJson → Heap × List HVal
  | [] => (h, [])
  | p :: ps =>
    let r := allocPJson h p
    let r2 := allocPJsonList r.1 ps
    (r2.1, r.2 :: r2.2)

def allocPJsonFields (h : Heap) :
    List (String × PJson) → Heap × List (String × HVal)
  | [] => (h, [])
  | kp :: ps =>
    let r := allocPJson h kp.2
    let r2 := allocPJsonFields r.1 ps
    (r2.1, (kp.1, r.2) :: r2.2)

end

/-- JS property read `v[k]` in the heap model; `none` is the TypeError on a
`null`/`undefined` receiver, or a dangling reference (impossible in
well-formed heaps).  Primitive receivers and arrays have no such own
property and give `undefined`. -/
def fieldRead (h : Heap) (v : HVal) (k : String) : Option HVal :=
  match v with
  | .undefined => none
  | .null => none
  | .ref a =>
    match h.get? a with
    | some (.objN fs) => some ((fs.lookup k).getD .undefined)
    | some (.arrN _) => some .undefined
    | none => none
  | _ => some .undefined

/-- Truthiness of a heap value (references are objects, always truthy). -/
def htruthy : HVal → Bool
  | .undefined => false
  | .null => false
  | .bool b => b
  | .num q => decide (q ≠ 0)
  | .str s => decide (s ≠ "")
  | .ref _ => true

/-- Replace (or append) a field in an object's field list. -/
def setAssoc : List (String × HVal) → String → HVal → List (String × HVal)
  | [], k, v => [(k, v)]
  | (k2, v2) :: rest, k, v =>
    if k2 = k then (k, v) :: rest else (k2, v2) :: setAssoc rest k v

/-- The assignment `obj.k = v` to the object at address `a`.  The only
assignment in `transformGeoJSON` targets a cloned geometry object; other
receivers are unreachable under its truthiness guards. -/
def setField (h : Heap) (a : ℕ) (k : String) (v : HVal) : Heap :=
  match h.get? a with
  | some (.objN fs) => h.set a (.objN (setAssoc fs k v))
  | _ => h

/-- Thread a heap through an element-wise transformation of a list
(`Array.prototype.map` with a mutable heap). -/
def mapMHeap (f : Heap → HVal → Option (Heap × HVal)) :
    Heap → List HVal → Option (Heap × List HVal)
  | h, [] => some (h, [])
  | h, v :: vs =>
    match f h v with
    | some r =>
      match mapMHeap f r.1 vs with
      | some r2 => some (r2.1, r.2 :: r2.2)
      | none => none
    | none => none

/-- `transformCoordinates` on the heap: the same runtime test as the pure
model (`typeof coords[0] === "number"`), but reading arrays from and
allocating the results into the heap; it never writes to an existing
object.  Fuel bounds the recursion depth; `none` models a thrown
TypeError or `proj4` failure. -/
def transformCoordinatesH (proj : ℚ × ℚ → ℚ × ℚ) :
    ℕ → Heap → HVal → Option (Heap × HVal)
  | 0, _, _ => none
  | fuel+1, h, v =>
    match v with
    | .ref a =>
      match h.get? a with
      | some (.arrN (.num x :: rest)) =>
        match rest with
        | .num y :: _ =>
          let r := h.alloc (.arrN [.num (proj (x, y)).1, .num (proj (x, y)).2])
          some (r.1, .ref r.2)
        | _ => none
      | some (.arrN es) =>
        match mapMHeap (transformCoordinatesH proj fuel) h es with
        | some r =>
          let r2 := r.1.alloc (.arrN r.2)
          some (r2.1, .ref r2.2)
        | none => none
      | _ => none
    | _ => none

/-- The `forEach` body over `transformed.features`: for each feature with
truthy `feature.geometry` and `feature.geometry.coordinates`, transform
the coordinates and assign the result back to
`feature.geometry.coordinates`. -/
def forEachFeature (proj : ℚ × ℚ → ℚ × ℚ) (fuel : ℕ) :
    Heap → List HVal → Option Heap
  | h, [] => some h
  | h, f :: fs =>
    match fieldRead h f "geometry" with
    | none => none
    | some gv =>
      if htruthy gv then
        match fieldRead h gv "coordinates" with
        | none => none
        | some cv =>
          if htruthy cv then
            match transformCoordinatesH proj fuel h cv with
            | some r =>
              match gv with
              | .ref ag => forEachFeature proj fuel (setField r.1 ag "coordinates" r.2) fs
              | _ => none
            | none => none
          else forEachFeature proj fuel h fs
      else forEachFeature proj fuel h fs

/-- `transformGeoJSON` (Map.jsx lines 51-63): deep-clone the document via
`JSON.parse(JSON.stringify(geojson))`, then, when the clone has a truthy
`features` array, reproject each feature's geometry coordinates in place
on the clone; return the final heap and the clone. -/
def transformGeoJSONH (proj : ℚ × ℚ → ℚ × ℚ) (fuel : ℕ) (h : Heap) (g : HVal) :
    Option (Heap × HVal) :=
  match readVal h fuel g with
  | none => none
  | some p =>
    let r := allocPJson h p
    match fieldRead r.1 r.2 "features" with
    | none => none
    | some fv =>
      if htruthy fv then
        match fv with
        | .ref af =>
          match r.1.get? af with
          | some (.arrN feats) =>
            match forEachFeature proj fuel r.1 feats with
            | some h2 => some (h2, r.2)
            | none => none
          | _ => none
        | _ => none
      else some (r.1, r.2)

/-- Whether a value only references addresses at or above `n0`. -/
def refGe (n0 : ℕ) : HVal → Bool
  | .ref a => decide (n0 ≤ a)
  | _ => true

/-- Whether a value only references addresses below `n`. -/
def refLt (n : ℕ) : HVal → Bool
  | .ref a => decide (a < n)
  | _ => true

/-- Whether all values held by a node reference only addresses `≥ n0`. -/
def HNode.refsGe (n0 : ℕ) : HNode → Bool
  | .arrN es => es.all (refGe n0)
  | .objN fs => fs.all (fun kv => refGe n0 kv.2)

/-- Whether all values held by a node reference only addresses `< n`. -/
def HNode.refsLt (n : ℕ) : HNode → Bool
  | .arrN es => es.all (refLt n)
  | .objN fs => fs.all (fun kv => refLt n kv.2)

/-- Well-formed heap: every node references only existing addresses. -/
def Heap.wfB (h : Heap) : Bool :=
  h.nodes.all (fun nd => nd.refsLt h.nodes.length)

/-- The heap region at addresses `≥ n0` references only addresses `≥ n0`
(the freshly cloned object graph is closed). -/
def regionClosed (n0 : ℕ) (h : Heap) : Prop :=
  ∀ i nd, n0 ≤ i → h.get? i = some nd → nd.refsGe n0 = true

/-- The two heaps hold identical objects at every address below `n0`. -/
def agreeBelow (n0 : ℕ) (h h2 : Heap) : Prop :=
  ∀ i, i < n0 → h2.get? i = h.get? i

/-- The running invariant for the transform: the heap extends past `n0`
and the region from `n0` up is closed. -/
def HeapInv (n0 : ℕ) (h : Heap) : Prop :=
  n0 ≤ h.nodes.length ∧ regionClosed n0 h

/-- A concrete heap holding a small FeatureCollection at address 5 (one
Polygon feature whose coordinates hold the single pair [1, 2]). -/
def wheap : Heap := ⟨[
  .arrN [.num 1, .num 2],
  .arrN [.ref 0],
  .objN [("type", .str "Polygon"), ("coordinates", .ref 1)],
  .objN [("geometry", .ref 2)],
  .arrN [.ref 3],
  .objN [("type", .str "FeatureCollection"), ("features", .ref 4)]]⟩

/-- A concrete projection for the witnesses. -/
def wproj : ℚ × ℚ → ℚ × ℚ := fun p => (p.1 + 1, p.2 + 1)

/-- The transform applied to the concrete document. -/
def wres : Heap × HVal :=
  (transformGeoJSONH wproj 10 wheap (.ref 5)).getD (⟨[]⟩, .undefined)

/-! ### Theorems -/

theorem getOwn_undefined_of_not_hasOwn (v : JSVal) (k : String)
    (h : hasOwn v k = false) : getOwn v k = .undefined := by
  cases v <;> simp only [getOwn]
  case obj fs =>
    simp only [hasOwn] at h
    rcases hlk : fs.lookup k with _ | w
    · rfl
    · rw [hlk] at h; simp at h

theorem jsOr_undefined (b : JSVal) : jsOr .undefined b = b := rfl

theorem jsOr_of_truthy (a b : JSVal) (h : truthy a = true) : jsOr a b = a := by
  simp [jsOr, h]

theorem jsOr_of_falsy (a b : JSVal) (h : truthy a = false) : jsOr a b = b := by
  simp [jsOr, h]

/-- C4: for every classification value outside the lookup tables (milestone
not in {0,1,2,3}; lithology code not among the strings "MC","GR","SED","VOL"),
`geojsonColors` resolves to the full style with the neutral gray default
fill "#374151" and `geologicalLayerColors` to the full style with the
"default" entry's color "#118AB2"; the returned style is always the fully
populated record, never a missing one. -/
theorem styleResolvers_default (f g : JSVal)
    (hm : ∀ q : ℚ, q ∈ ([0, 1, 2, 3] : List ℚ) → getMilestone f ≠ .val q)
    (hl : ∀ s : String, s ∈ (["MC", "GR", "SED", "VOL"] : List String) →
      getLithCode g ≠ .str s) :
    geojsonColors f =
      { color := "#000", fillColor := "#374151", weight := 2, fillOpacity := 7/10 }
    ∧ geologicalLayerColors g =
      { color := "#000", fillColor := "#118AB2", weight := 2, fillOpacity := 7/10 } := by
  constructor
  · have hnone : milestoneColors (getMilestone f) = none := by
      cases hq : getMilestone f with
      | nan => rfl
      | val q =>
        have h0 : q ≠ 0 := fun h => hm 0 (by simp) (by rw [hq, h])
        have h1 : q ≠ 1 := fun h => hm 1 (by simp) (by rw [hq, h])
        have h2 : q ≠ 2 := fun h => hm 2 (by simp) (by rw [hq, h])
        have h3 : q ≠ 3 := fun h => hm 3 (by simp) (by rw [hq, h])
        simp [milestoneColors, h0, h1, h2, h3]
    simp [geojsonColors, hnone]
  · have hfill :
        ((geologicalColors (getLithCode g)).map ColorEntry.color).getD
          geologicalDefault.color = "#118AB2" := by
      cases hq : getLithCode g with
      | str s =>
        have hMC : s ≠ "MC" := fun h => hl "MC" (by simp) (by rw [hq, h])
        have hGR : s ≠ "GR" := fun h => hl "GR" (by simp) (by rw [hq, h])
        have hSED : s ≠ "SED" := fun h => hl "SED" (by simp) (by rw [hq, h])
        have hVOL : s ≠ "VOL" := fun h => hl "VOL" (by simp) (by rw [hq, h])
        by_cases hd : s = "default"
        · simp [geologicalColors, hd, geologicalDefault]
        · simp [geologicalColors, hMC, hGR, hSED, hVOL, hd, geologicalDefault]
      | undefined => rfl
      | null => rfl
      | bool b => rfl
      | num n => rfl
      | obj fs => rfl
    simp [geologicalLayerColors, hfill]

/-- Witness for `styleResolvers_default` at `{Milestone: 7}` and
`{LITHCODE: "XYZ"}`. -/
theorem styleResolvers_default_witness :
    geojsonColors (.obj [("properties", .obj [("Milestone", .num (.val 7))])]) =
      { color := "#000", fillColor := "#374151", weight := 2, fillOpacity := 7/10 }
    ∧ geologicalLayerColors (.obj [("properties", .obj [("LITHCODE", .str "XYZ")])]) =
      { color := "#000", fillColor := "#118AB2", weight := 2, fillOpacity := 7/10 } :=
  styleResolvers_default
    (.obj [("properties", .obj [("Milestone", .num (.val 7))])])
    (.obj [("properties", .obj [("LITHCODE", .str "XYZ")])])
    (by intro q hq
        fin_cases hq <;> decide)
    (by intro s hs
        fin_cases hs <;>
          simp [show getLithCode
              (.obj [("properties", .obj [("LITHCODE", .str "XYZ")])]) =
              .str "XYZ" from rfl])

/-- C5 counterexample: the property bag `{" cl name": ""}` lacks the
canonical key "Cluster" and contains the alternate key, yet
`getClusterName` returns the sentinel "Unknown", not the alternate key's
(falsy) value "". -/
theorem clusterName_falsy_alternate_cex :
    hasOwn (getProps (.obj [("properties", .obj [(" cl name", .str "")])]))
        "Cluster" = false
    ∧ hasOwn (getProps (.obj [("properties", .obj [(" cl name", .str "")])]))
        " cl name" = true
    ∧ getClusterName (.obj [("properties", .obj [(" cl name", .str "")])]) =
        .str "Unknown"
    ∧ getOwn (getProps (.obj [("properties", .obj [(" cl name", .str "")])]))
        " cl name" = .str ""
    ∧ JSVal.str "Unknown" ≠ JSVal.str "" :=
  ⟨rfl, rfl, rfl, rfl, by simp⟩

/-- C5 amended: on a bag lacking the canonical key whose alternate key holds
a truthy value, the classifier returns the alternate key's value; on a bag
with neither canonical nor alternate key, each classifier returns its
sentinel default ("Unknown", 0, "default"); classifiers are total (never
throw) including on a missing properties bag. -/
theorem classifier_fallback_amended (f g : JSVal)
    (hf1 : hasOwn (getProps f) "Cluster" = false)
    (hf2 : truthy (getOwn (getProps f) " cl name") = true)
    (hg1 : hasOwn (getProps g) "Cluster" = false)
    (hg2 : hasOwn (getProps g) " cl name" = false)
    (hg3 : hasOwn (getProps g) "Milestone" = false)
    (hg4 : hasOwn (getProps g) "LITHCODE" = false) :
    getClusterName f = getOwn (getProps f) " cl name"
    ∧ getClusterName g = .str "Unknown"
    ∧ getMilestone g = .val 0
    ∧ getLithCode g = .str "default"
    ∧ getClusterName .undefined = .str "Unknown"
    ∧ getMilestone .undefined = .val 0
    ∧ getLithCode .undefined = .str "default" := by
  refine ⟨?_, ?_, ?_, ?_, rfl, rfl, rfl⟩
  · show jsOr (getOwn (getProps f) "Cluster")
        (jsOr (getOwn (getProps f) " cl name") (.str "Unknown")) =
      getOwn (getProps f) " cl name"
    rw [getOwn_undefined_of_not_hasOwn _ _ hf1, jsOr_undefined, jsOr_of_truthy _ _ hf2]
  · show jsOr (getOwn (getProps g) "Cluster")
        (jsOr (getOwn (getProps g) " cl name") (.str "Unknown")) =
      .str "Unknown"
    rw [getOwn_undefined_of_not_hasOwn _ _ hg1, jsOr_undefined,
      getOwn_undefined_of_not_hasOwn _ _ hg2, jsOr_undefined]
  · show toNumber (nullish (getOwn (getProps g) "Milestone") (.num (.val 0))) =
      .val 0
    rw [getOwn_undefined_of_not_hasOwn _ _ hg3]
    rfl
  · show jsOr (getOwn (getProps g) "LITHCODE") (.str "default") = .str "default"
    rw [getOwn_undefined_of_not_hasOwn _ _ hg4, jsOr_undefined]

/-- Witness for `classifier_fallback_amended` at
`{" cl name": "Alpha"}` and a feature with no properties bag. -/
theorem classifier_fallback_amended_witness :
    getClusterName (.obj [("properties", .obj [(" cl name", .str "Alpha")])]) =
      getOwn (getProps (.obj [("properties", .obj [(" cl name", .str "Alpha")])]))
        " cl name"
    ∧ getClusterName (.obj []) = .str "Unknown"
    ∧ getMilestone (.obj []) = .val 0
    ∧ getLithCode (.obj []) = .str "default"
    ∧ getClusterName .undefined = .str "Unknown"
    ∧ getMilestone .undefined = .val 0
    ∧ getLithCode .undefined = .str "default" :=
  classifier_fallback_amended
    (.obj [("properties", .obj [(" cl name", .str "Alpha")])]) (.obj [])
    rfl rfl rfl rfl rfl rfl

/-- C6: `{Milestone: 2}` classifies as 2 and resolves to fill "#27823B"
with label "Milestone 2"; `{LITHCODE: "XYZ"}` (unrecognized) resolves to
the "default" entry's color "#118AB2". -/
theorem concrete_style_examples :
    getMilestone (.obj [("properties", .obj [("Milestone", .num (.val 2))])]) = .val 2
    ∧ geojsonColors (.obj [("properties", .obj [("Milestone", .num (.val 2))])]) =
        { color := "#000", fillColor := "#27823B", weight := 2, fillOpacity := 7/10 }
    ∧ milestoneLabel (.obj [("properties", .obj [("Milestone", .num (.val 2))])]) =
        "Milestone 2"
    ∧ geologicalLayerColors (.obj [("properties", .obj [("LITHCODE", .str "XYZ")])]) =
        { color := "#000", fillColor := "#118AB2", weight := 2, fillOpacity := 7/10 }
    ∧ (geologicalLayerColors
        (.obj [("properties", .obj [("LITHCODE", .str "XYZ")])])).fillColor =
        geologicalDefault.color :=
  ⟨rfl, rfl, rfl, rfl, rfl⟩

/-- C7 counterexample: in the current component the two style resolvers
return the same fill opacity (0.7) on the same input feature, so the fill
opacity is not distinct between the "clusters" and "geological" layers. -/
theorem fillOpacity_equal_cex :
    (geojsonColors (.obj [])).fillOpacity =
      (geologicalLayerColors (.obj [])).fillOpacity := rfl

/-- C7 amended: both resolvers always return a fixed black stroke "#000",
a fixed stroke weight 2, and the same fixed fill opacity 0.7; only the
earliest component version used a different fill opacity (1). -/
theorem style_fixed_fields_amended (f g : JSVal) :
    (geojsonColors f).color = "#000" ∧ (geojsonColors f).weight = 2
    ∧ (geojsonColors f).fillOpacity = 7/10
    ∧ (geologicalLayerColors g).color = "#000" ∧ (geologicalLayerColors g).weight = 2
    ∧ (geologicalLayerColors g).fillOpacity = 7/10
    ∧ (geojsonColorsV1 f).fillOpacity = 1 :=
  ⟨rfl, rfl, rfl, rfl, rfl, rfl, rfl⟩

/-- C10: the fallback lookups are not uniform about present-but-falsy
values: a falsy canonical "Cluster"/"LITHCODE" value falls through to the
alternate key or sentinel (`{Cluster: ""}` gives "Unknown",
`{LITHCODE: ""}` gives "default"), while `getMilestone` uses nullish
coalescing: an explicit `{Milestone: 0}` classifies as 0, a present
non-null value is passed to `Number(...)` unchanged, and a non-numeric one
such as `{Milestone: "abc"}` classifies as NaN rather than the sentinel. -/
theorem falsy_lookup_nonuniform (f g : JSVal)
    (hf : truthy (getOwn (getProps f) "Cluster") = false)
    (hg : truthy (getOwn (getProps g) "LITHCODE") = false) :
    getClusterName f = jsOr (getOwn (getProps f) " cl name") (.str "Unknown")
    ∧ getLithCode g = .str "default"
    ∧ getClusterName (.obj [("properties", .obj [("Cluster", .str "")])]) =
        .str "Unknown"
    ∧ getLithCode (.obj [("properties", .obj [("LITHCODE", .str "")])]) =
        .str "default"
    ∧ getMilestone (.obj [("properties", .obj [("Milestone", .num (.val 0))])]) =
        .val 0
    ∧ (∀ v : JSVal, v ≠ .null → v ≠ .undefined →
        getMilestone (.obj [("properties", .obj [("Milestone", v)])]) = toNumber v)
    ∧ getMilestone (.obj [("properties", .obj [("Milestone", .str "abc")])]) = .nan := by
  refine ⟨?_, ?_, rfl, rfl, rfl, ?_, rfl⟩
  · show jsOr (getOwn (getProps f) "Cluster")
        (jsOr (getOwn (getProps f) " cl name") (.str "Unknown")) =
      jsOr (getOwn (getProps f) " cl name") (.str "Unknown")
    rw [jsOr_of_falsy _ _ hf]
  · show jsOr (getOwn (getProps g) "LITHCODE") (.str "default") = .str "default"
    rw [jsOr_of_falsy _ _ hg]
  · intro v hv1 hv2
    cases v with
    | null => exact absurd rfl hv1
    | undefined => exact absurd rfl hv2
    | bool b => rfl
    | num n => rfl
    | str s => rfl
    | obj fs => rfl

/-- Witness for `falsy_lookup_nonuniform` at `{Cluster: ""}` and
`{LITHCODE: ""}`. -/
theorem falsy_lookup_nonuniform_witness :
    getClusterName (.obj [("properties", .obj [("Cluster", .str "")])]) =
      jsOr (getOwn (getProps (.obj [("properties", .obj [("Cluster", .str "")])]))
        " cl name") (.str "Unknown")
    ∧ getLithCode (.obj [("properties", .obj [("LITHCODE", .str "")])]) =
        .str "default"
    ∧ getClusterName (.obj [("properties", .obj [("Cluster", .str "")])]) =
        .str "Unknown"
    ∧ getLithCode (.obj [("properties", .obj [("LITHCODE", .str "")])]) =
        .str "default"
    ∧ getMilestone (.obj [("properties", .obj [("Milestone", .num (.val 0))])]) =
        .val 0
    ∧ (∀ v : JSVal, v ≠ .null → v ≠ .undefined →
        getMilestone (.obj [("properties", .obj [("Milestone", v)])]) = toNumber v)
    ∧ getMilestone (.obj [("properties", .obj [("Milestone", .str "abc")])]) = .nan :=
  falsy_lookup_nonuniform
    (.obj [("properties", .obj [("Cluster", .str "")])])
    (.obj [("properties", .obj [("LITHCODE", .str "")])])
    rfl rfl


theorem runCleanup_active (s : CompState) : (runCleanup s).active = s.active := by
  cases h : s.legendId <;> simp [runCleanup, h]

theorem setLayer_active (s : CompState) (l : Layer) : (setLayer s l).active = l :=
  runCleanup_active { s with active := l }

theorem setLayer_inv (s : CompState) (l : Layer) (h : LegendInv s) :
    LegendInv (setLayer s l) := by
  obtain ⟨id, h1, h2⟩ := h
  have hclean : runCleanup { s with active := l } =
      { active := l, map := removeControl s.map id, legendId := none } := by
    simp [runCleanup, h1]
  have hrem : removeControl s.map id = ⟨[], s.map.nextId⟩ := by
    simp [removeControl, h2]
  show LegendInv (runLegendEffect (runCleanup { s with active := l }))
  rw [hclean, hrem]
  exact ⟨s.map.nextId, rfl, rfl⟩

theorem foldl_setLayer_inv (seq : List Layer) : ∀ s : CompState,
    LegendInv s → LegendInv (seq.foldl setLayer s) := by
  induction seq with
  | nil => exact fun s h => h
  | cons l ls ih => exact fun s h => ih _ (setLayer_inv s l h)

theorem mountedState_inv : LegendInv mountedState := ⟨0, rfl, rfl⟩

theorem foldl_setLayer_active (seq : List Layer) : ∀ s : CompState,
    (seq.foldl setLayer s).active = seq.getLast?.getD s.active := by
  induction seq with
  | nil => intro s; rfl
  | cons l ls ih =>
    intro s
    rw [List.foldl_cons, ih]
    cases ls with
    | nil => simp [setLayer_active]
    | cons a as =>
      rw [List.getLast?_cons_cons]
      cases hx : (a :: as).getLast? with
      | none => simp at hx
      | some x => rfl

/-- C8: after any sequence of activeLayer renders starting from the mounted
component (in particular toggling "clusters" to "geological" and back,
twice), exactly one legend control is attached; its content is the legend
of the final active layer, whose entries are the full value set of that
layer's table (all 4 milestone entries, or all 5 geological entries
including the "default" one). -/
theorem legend_single_control (seq : List Layer) :
    (seq.foldl setLayer mountedState).map.controls.map Prod.snd =
      [legendFor (seq.foldl setLayer mountedState).active]
    ∧ (seq.foldl setLayer mountedState).active = seq.getLast?.getD Layer.clusters
    ∧ legendFor .clusters = ⟨"Milestones", milestoneColorsEntries.map Prod.snd⟩
    ∧ (legendFor .clusters).items.length = 4
    ∧ legendFor .geological = ⟨"Geology", geologicalColorsEntries.map Prod.snd⟩
    ∧ (legendFor .geological).items.length = 5
    ∧ geologicalDefault ∈ (legendFor .geological).items := by
  obtain ⟨id, h1, h2⟩ := foldl_setLayer_inv seq mountedState mountedState_inv
  refine ⟨?_, foldl_setLayer_active seq mountedState, rfl, rfl, rfl, rfl, by decide⟩
  rw [h2]
  rfl


theorem specMapLeaves_arr (proj : ℚ × ℚ → ℚ × ℚ) :
    ∀ es : List CoordTree, ∃ es2, specMapLeaves proj (.arr es) = .arr es2
  | [] => ⟨_, rfl⟩
  | [.num _] => ⟨_, rfl⟩
  | [.num _, .num _] => ⟨_, rfl⟩
  | .num _ :: .num _ :: _ :: _ => ⟨_, rfl⟩
  | .num _ :: .arr _ :: _ => ⟨_, rfl⟩
  | .arr _ :: _ => ⟨_, rfl⟩

mutual

theorem transformValid_aux (proj : ℚ × ℚ → ℚ × ℚ) : ∀ c : CoordTree,
    isValidCoords c = true →
    transformCoordinates proj c = some (specMapLeaves proj c)
    ∧ shapeOf (specMapLeaves proj c) = shapeOf c
    ∧ leavesOf (specMapLeaves proj c) = (leavesOf c).map proj
  | .num _, h => by simp [isValidCoords] at h
  | .arr [], _ => ⟨rfl, rfl, rfl⟩
  | .arr [.num x, .num y], _ => by
    refine ⟨rfl, rfl, ?_⟩
    simp [specMapLeaves, leavesOf]
  | .arr [.num x], h => by simp [isValidCoords, isValidCoordsList] at h
  | .arr (.num x :: .num y :: z :: zs), h => by
    simp [isValidCoords, isValidCoordsList] at h
  | .arr (.num x :: .arr a :: rest), h => by
    simp [isValidCoords, isValidCoordsList] at h
  | .arr (.arr a :: rest), h => by
    have h2 : isValidCoordsList (.arr a :: rest) = true := by
      simpa [isValidCoords] using h
    obtain ⟨e1, e2, e3⟩ := transformValidList_aux proj (.arr a :: rest) h2
    obtain ⟨a2, ha2⟩ := specMapLeaves_arr proj a
    refine ⟨?_, ?_, ?_⟩
    · simp [transformCoordinates, e1, specMapLeaves]
    · simp [specMapLeaves, shapeOf, e2]
    · have hhead : specMapLeavesList proj (.arr a :: rest) =
          specMapLeaves proj (.arr a) :: specMapLeavesList proj rest := rfl
      calc leavesOf (specMapLeaves proj (.arr (.arr a :: rest)))
          = leavesOf (.arr (specMapLeavesList proj (.arr a :: rest))) := by
            rw [show specMapLeaves proj (.arr (.arr a :: rest)) =
              .arr (specMapLeavesList proj (.arr a :: rest)) from rfl]
        _ = leavesOfList (specMapLeavesList proj (.arr a :: rest)) := by
            rw [hhead, ha2]
            rfl
        _ = (leavesOfList (.arr a :: rest)).map proj := e3
        _ = (leavesOf (.arr (.arr a :: rest))).map proj := rfl

theorem transformValidList_aux (proj : ℚ × ℚ → ℚ × ℚ) : ∀ es : List CoordTree,
    isValidCoordsList es = true →
    transformCoordinatesList proj es = some (specMapLeavesList proj es)
    ∧ shapeOfList (specMapLeavesList proj es) = shapeOfList es
    ∧ leavesOfList (specMapLeavesList proj es) = (leavesOfList es).map proj
  | [], _ => ⟨rfl, rfl, rfl⟩
  | c :: cs, h => by
    have hc : isValidCoords c = true := by
      simp [isValidCoordsList, Bool.and_eq_true] at h
      exact h.1
    have hcs : isValidCoordsList cs = true := by
      simp [isValidCoordsList, Bool.and_eq_true] at h
      exact h.2
    obtain ⟨a1, a2, a3⟩ := transformValid_aux proj c hc
    obtain ⟨b1, b2, b3⟩ := transformValidList_aux proj cs hcs
    refine ⟨?_, ?_, ?_⟩
    · simp [transformCoordinatesList, a1, b1, specMapLeavesList]
    · simp [specMapLeavesList, shapeOfList, a2, b2]
    · simp [specMapLeavesList, leavesOfList, a3, b3]

end

/-- C1: for every valid nested coordinate structure, `transformCoordinates`
succeeds and returns the structure of identical nesting shape in which
every leaf pair is replaced by the projection of that pair alone, order
preserved at every level (it agrees with the spec-side `specMapLeaves`,
preserves `shapeOf`, and maps `leavesOf` pointwise). -/
theorem transformCoordinates_spec (proj : ℚ × ℚ → ℚ × ℚ) (c : CoordTree)
    (h : isValidCoords c = true) :
    transformCoordinates proj c = some (specMapLeaves proj c)
    ∧ shapeOf (specMapLeaves proj c) = shapeOf c
    ∧ leavesOf (specMapLeaves proj c) = (leavesOf c).map proj :=
  transformValid_aux proj c h

/-- Witness for `transformCoordinates_spec` on a small MultiPolygon-shaped
structure with the swap projection. -/
theorem transformCoordinates_spec_witness :
    transformCoordinates (fun p => (p.2, p.1))
        (.arr [.arr [.arr [.num 1, .num 2], .arr [.num 3, .num 4]]]) =
      some (specMapLeaves (fun p => (p.2, p.1))
        (.arr [.arr [.arr [.num 1, .num 2], .arr [.num 3, .num 4]]]))
    ∧ shapeOf (specMapLeaves (fun p => (p.2, p.1))
        (.arr [.arr [.arr [.num 1, .num 2], .arr [.num 3, .num 4]]])) =
      shapeOf (.arr [.arr [.arr [.num 1, .num 2], .arr [.num 3, .num 4]]])
    ∧ leavesOf (specMapLeaves (fun p => (p.2, p.1))
        (.arr [.arr [.arr [.num 1, .num 2], .arr [.num 3, .num 4]]])) =
      (leavesOf (.arr [.arr [.arr [.num 1, .num 2], .arr [.num 3, .num 4]]])).map
        (fun p => (p.2, p.1)) :=
  transformCoordinates_spec (fun p => (p.2, p.1))
    (.arr [.arr [.arr [.num 1, .num 2], .arr [.num 3, .num 4]]]) rfl


theorem agreeBelow_refl (n0 : ℕ) (h : Heap) : agreeBelow n0 h h := fun _ _ => rfl

theorem agreeBelow_trans {n0 : ℕ} {h1 h2 h3 : Heap}
    (a : agreeBelow n0 h1 h2) (b : agreeBelow n0 h2 h3) : agreeBelow n0 h1 h3 :=
  fun i hi => (b i hi).trans (a i hi)

theorem alloc_get_lt (h : Heap) (nd : HNode) {i : ℕ} (hi : i < h.nodes.length) :
    (h.alloc nd).1.get? i = h.get? i := by
  simp only [Heap.alloc, Heap.get?]
  rw [List.getElem?_append]
  simp [hi]

theorem alloc_len (h : Heap) (nd : HNode) :
    (h.alloc nd).1.nodes.length = h.nodes.length + 1 := by
  simp [Heap.alloc]

theorem alloc_get_self (h : Heap) (nd : HNode) :
    (h.alloc nd).1.get? h.nodes.length = some nd := by
  simp [Heap.alloc, Heap.get?]

theorem regionClosed_init (h : Heap) : regionClosed h.nodes.length h := by
  intro i nd hi hget
  rw [Heap.get?, List.getElem?_eq_none hi] at hget
  cases hget

theorem alloc_inv {n0 : ℕ} {h : Heap} (nd : HNode) (hI : HeapInv n0 h)
    (hnd : nd.refsGe n0 = true) :
    HeapInv n0 (h.alloc nd).1 ∧ agreeBelow n0 h (h.alloc nd).1 := by
  obtain ⟨hlen, hrc⟩ := hI
  refine ⟨⟨?_, ?_⟩, ?_⟩
  · rw [alloc_len]; omega
  · intro i ndi hi hget
    by_cases hlt : i < h.nodes.length
    · rw [alloc_get_lt h nd hlt] at hget
      exact hrc i ndi hi hget
    · by_cases heq : i = h.nodes.length
      · subst heq
        rw [alloc_get_self] at hget
        cases hget
        exact hnd
      · have hge : (h.alloc nd).1.nodes.length ≤ i := by rw [alloc_len]; omega
        rw [Heap.get?, List.getElem?_eq_none hge] at hget
        cases hget
  · intro i hi
    exact alloc_get_lt h nd (lt_of_lt_of_le hi hlen)

theorem set_inv {n0 : ℕ} {h : Heap} {a : ℕ} (nd : HNode) (hI : HeapInv n0 h)
    (ha : n0 ≤ a) (hnd : nd.refsGe n0 = true) :
    HeapInv n0 (h.set a nd) ∧ agreeBelow n0 h (h.set a nd) := by
  obtain ⟨hlen, hrc⟩ := hI
  refine ⟨⟨?_, ?_⟩, ?_⟩
  · simpa [Heap.set] using hlen
  · intro i ndi hi hget
    by_cases heq : a = i
    · subst heq
      by_cases hlt : a < h.nodes.length
      · rw [Heap.get?] at hget
        simp only [Heap.set, List.getElem?_set, if_pos rfl] at hget
        rw [if_pos hlt] at hget
        cases hget
        exact hnd
      · have hge : h.nodes.length ≤ a := by omega
        rw [Heap.get?] at hget
        simp only [Heap.set] at hget
        rw [List.getElem?_eq_none (by simpa using hge)] at hget
        cases hget
    · rw [Heap.get?] at hget
      simp only [Heap.set, List.getElem?_set_ne heq] at hget
      exact hrc i ndi hi hget
  · intro i hi
    have hne : a ≠ i := by omega
    simp [Heap.set, Heap.get?, List.getElem?_set_ne hne]

theorem setAssoc_refsGe {n0 : ℕ} {v : HVal} (hv : refGe n0 v = true) :
    ∀ (fs : List (String × HVal)) (k : String),
      fs.all (fun kv => refGe n0 kv.2) = true →
      (setAssoc fs k v).all (fun kv => refGe n0 kv.2) = true
  | [], k, _ => by simp [setAssoc, hv]
  | (k2, v2) :: rest, k, hall => by
    simp only [List.all_cons, Bool.and_eq_true] at hall
    by_cases hk : k2 = k
    · simp [setAssoc, hk, hv, hall.2]
    · simp only [setAssoc, if_neg hk, List.all_cons, Bool.and_eq_true]
      exact ⟨hall.1, setAssoc_refsGe hv rest k hall.2⟩

theorem setField_inv {n0 : ℕ} {h : Heap} {a : ℕ} {k : String} {v : HVal}
    (hI : HeapInv n0 h) (ha : n0 ≤ a) (hv : refGe n0 v = true) :
    HeapInv n0 (setField h a k v) ∧ agreeBelow n0 h (setField h a k v) := by
  unfold setField
  cases hget : h.get? a with
  | none => exact ⟨hI, agreeBelow_refl _ _⟩
  | some nd =>
    cases nd with
    | arrN es => exact ⟨hI, agreeBelow_refl _ _⟩
    | objN fs =>
      have hfs : fs.all (fun kv => refGe n0 kv.2) = true := by
        simpa [HNode.refsGe] using hI.2 a _ ha hget
      exact set_inv _ hI ha
        (by simpa [HNode.refsGe] using setAssoc_refsGe hv fs k hfs)

theorem lookup_snd_all {P : HVal → Bool} :
    ∀ (fs : List (String × HVal)) (k : String) (w : HVal),
      fs.all (fun kv => P kv.2) = true → fs.lookup k = some w → P w = true
  | [], _, _, _, hl => by simp [List.lookup] at hl
  | (k2, v2) :: rest, k, w, hall, hl => by
    simp only [List.all_cons, Bool.and_eq_true] at hall
    rw [List.lookup] at hl
    by_cases hk : k = k2
    · subst hk
      simp at hl
      subst hl
      exact hall.1
    · have hbeq : (k == k2) = false := by
        simpa using hk
      rw [hbeq] at hl
      exact lookup_snd_all rest k w hall.2 hl

theorem fieldRead_refGe {n0 : ℕ} {h : Heap} {v w : HVal} {k : String}
    (hI : HeapInv n0 h) (hv : refGe n0 v = true)
    (hr : fieldRead h v k = some w) : refGe n0 w = true := by
  cases v with
  | undefined => simp [fieldRead] at hr
  | null => simp [fieldRead] at hr
  | bool b => simp [fieldRead] at hr; subst hr; rfl
  | num q => simp [fieldRead] at hr; subst hr; rfl
  | str s => simp [fieldRead] at hr; subst hr; rfl
  | ref a =>
    have ha : n0 ≤ a := by simpa [refGe] using hv
    cases hget : h.get? a with
    | none => simp [fieldRead, hget] at hr
    | some nd =>
      cases nd with
      | arrN es =>
        simp [fieldRead, hget] at hr
        subst hr
        rfl
      | objN fs =>
        have hfs : fs.all (fun kv => refGe n0 kv.2) = true := by
          simpa [HNode.refsGe] using hI.2 a _ ha hget
        simp only [fieldRead, hget] at hr
        cases hlk : fs.lookup k with
        | none =>
          rw [hlk] at hr
          simp at hr
          subst hr
          rfl
        | some w2 =>
          rw [hlk] at hr
          simp at hr
          subst hr
          exact lookup_snd_all fs k _ hfs hlk

theorem arr_elems_refGe {n0 : ℕ} {h : Heap} {a : ℕ} {es : List HVal}
    (hI : HeapInv n0 h) (ha : n0 ≤ a)
    (hget : h.get? a = some (.arrN es)) : es.all (refGe n0) = true := by
  simpa [HNode.refsGe] using hI.2 a _ ha hget
theorem tch_container_result (proj : ℚ × ℚ → ℚ × ℚ) (n0 f : ℕ)
    {h : Heap} {es : List HVal} {r2 : Heap × List HVal}
    (ihL : ∀ es2 h2 r, HeapInv n0 h2 →
      mapMHeap (transformCoordinatesH proj f) h2 es2 = some r →
      HeapInv n0 r.1 ∧ agreeBelow n0 h2 r.1 ∧ r.2.all (refGe n0) = true)
    (hI : HeapInv n0 h)
    (hm : mapMHeap (transformCoordinatesH proj f) h es = some r2) :
    HeapInv n0 (r2.1.alloc (.arrN r2.2)).1
    ∧ agreeBelow n0 h (r2.1.alloc (.arrN r2.2)).1
    ∧ refGe n0 (.ref (r2.1.alloc (.arrN r2.2)).2) = true := by
  obtain ⟨hI2, hag2, hall2⟩ := ihL es h r2 hI hm
  have hrg : (HNode.arrN r2.2).refsGe n0 = true := by
    simpa [HNode.refsGe] using hall2
  obtain ⟨hI3, hag3⟩ := alloc_inv _ hI2 hrg
  exact ⟨hI3, agreeBelow_trans hag2 hag3,
    by simpa [refGe, Heap.alloc] using hI2.1⟩

theorem tch_inv (proj : ℚ × ℚ → ℚ × ℚ) (n0 : ℕ) : ∀ fuel : ℕ,
    (∀ h v r, HeapInv n0 h → transformCoordinatesH proj fuel h v = some r →
      HeapInv n0 r.1 ∧ agreeBelow n0 h r.1 ∧ refGe n0 r.2 = true)
    ∧ (∀ es h r, HeapInv n0 h →
        mapMHeap (transformCoordinatesH proj fuel) h es = some r →
        HeapInv n0 r.1 ∧ agreeBelow n0 h r.1 ∧ r.2.all (refGe n0) = true) := by
  intro fuel
  induction fuel with
  | zero =>
    constructor
    · intro h v r _ hr
      simp [transformCoordinatesH] at hr
    · intro es h r hI hr
      cases es with
      | nil =>
        simp only [mapMHeap] at hr
        cases hr
        exact ⟨hI, agreeBelow_refl _ _, rfl⟩
      | cons v vs => simp [mapMHeap, transformCoordinatesH] at hr
  | succ f ih =>
    have hH : ∀ h v r, HeapInv n0 h →
        transformCoordinatesH proj (f+1) h v = some r →
        HeapInv n0 r.1 ∧ agreeBelow n0 h r.1 ∧ refGe n0 r.2 = true := by
      intro h v r hI hr
      cases v with
      | undefined => simp [transformCoordinatesH] at hr
      | null => simp [transformCoordinatesH] at hr
      | bool b => simp [transformCoordinatesH] at hr
      | num q => simp [transformCoordinatesH] at hr
      | str s => simp [transformCoordinatesH] at hr
      | ref a =>
        cases hget : h.get? a with
        | none => simp [transformCoordinatesH, hget] at hr
        | some nd =>
          cases nd with
          | objN fs => simp [transformCoordinatesH, hget] at hr
          | arrN es =>
            cases es with
            | nil =>
              simp only [transformCoordinatesH, hget] at hr
              split at hr
              next r2 hm =>
                cases hr
                exact tch_container_result proj n0 f ih.2 hI hm
              next hm => cases hr
            | cons e0 rest0 =>
              cases e0 with
              | num x =>
                cases rest0 with
                | nil =>
                  simp only [transformCoordinatesH, hget] at hr
                  cases hr
                | cons e1 rest1 =>
                  cases e1 with
                  | num y =>
                    simp only [transformCoordinatesH, hget] at hr
                    cases hr
                    have hrg : (HNode.arrN
                        [.num (proj (x, y)).1, .num (proj (x, y)).2]).refsGe n0 =
                        true := rfl
                    obtain ⟨hI2, hag2⟩ := alloc_inv _ hI hrg
                    exact ⟨hI2, hag2, by simpa [refGe, Heap.alloc] using hI.1⟩
                  | undefined =>
                    simp only [transformCoordinatesH, hget] at hr
                    cases hr
                  | null =>
                    simp only [transformCoordinatesH, hget] at hr
                    cases hr
                  | bool b2 =>
                    simp only [transformCoordinatesH, hget] at hr
                    cases hr
                  | str s2 =>
                    simp only [transformCoordinatesH, hget] at hr
                    cases hr
                  | ref a2 =>
                    simp only [transformCoordinatesH, hget] at hr
                    cases hr
              | undefined =>
                simp only [transformCoordinatesH, hget] at hr
                split at hr
                next r2 hm =>
                  cases hr
                  exact tch_container_result proj n0 f ih.2 hI hm
                next hm => cases hr
              | null =>
                simp only [transformCoordinatesH, hget] at hr
                split at hr
                next r2 hm =>
                  cases hr
                  exact tch_container_result proj n0 f ih.2 hI hm
                next hm => cases hr
              | bool b =>
                simp only [transformCoordinatesH, hget] at hr
                split at hr
                next r2 hm =>
                  cases hr
                  exact tch_container_result proj n0 f ih.2 hI hm
                next hm => cases hr
              | str s =>
                simp only [transformCoordinatesH, hget] at hr
                split at hr
                next r2 hm =>
                  cases hr
                  exact tch_container_result proj n0 f ih.2 hI hm
                next hm => cases hr
              | ref a2 =>
                simp only [transformCoordinatesH, hget] at hr
                split at hr
                next r2 hm =>
                  cases hr
                  exact tch_container_result proj n0 f ih.2 hI hm
                next hm => cases hr
    refine ⟨hH, ?_⟩
    intro es
    induction es with
    | nil =>
      intro h r hI hr
      simp only [mapMHeap] at hr
      cases hr
      exact ⟨hI, agreeBelow_refl _ _, rfl⟩
    | cons v vs ihes =>
      intro h r hI hr
      cases h1 : transformCoordinatesH proj (f+1) h v with
      | none =>
        simp only [mapMHeap, h1] at hr
        cases hr
      | some r1 =>
        obtain ⟨hI1, hag1, hrg1⟩ := hH h v r1 hI h1
        cases h2 : mapMHeap (transformCoordinatesH proj (f+1)) r1.1 vs with
        | none =>
          simp only [mapMHeap, h1, h2] at hr
          cases hr
        | some r2 =>
          obtain ⟨hI2, hag2, hall2⟩ := ihes r1.1 r2 hI1 h2
          simp only [mapMHeap, h1, h2] at hr
          cases hr
          exact ⟨hI2, agreeBelow_trans hag1 hag2,
            by simp [List.all_cons, hrg1, hall2]⟩


mutual

theorem allocP_inv (n0 : ℕ) : ∀ (p : PJson) (h : Heap), HeapInv n0 h →
    HeapInv n0 (allocPJson h p).1 ∧ agreeBelow n0 h (allocPJson h p).1
    ∧ refGe n0 (allocPJson h p).2 = true
  | .null, h, hI => ⟨hI, agreeBelow_refl _ _, rfl⟩
  | .bool b, h, hI => ⟨hI, agreeBelow_refl _ _, rfl⟩
  | .num q, h, hI => ⟨hI, agreeBelow_refl _ _, rfl⟩
  | .str s, h, hI => ⟨hI, agreeBelow_refl _ _, rfl⟩
  | .arr es, h, hI => by
    obtain ⟨i1, a1, all1⟩ := allocPList_inv n0 es h hI
    have hrg : (HNode.arrN (allocPJsonList h es).2).refsGe n0 = true := by
      simpa [HNode.refsGe] using all1
    obtain ⟨i2, a2⟩ := alloc_inv _ i1 hrg
    exact ⟨i2, agreeBelow_trans a1 a2,
      by simpa [allocPJson, refGe, Heap.alloc] using i1.1⟩
  | .obj fs, h, hI => by
    obtain ⟨i1, a1, all1⟩ := allocPFields_inv n0 fs h hI
    have hrg : (HNode.objN (allocPJsonFields h fs).2).refsGe n0 = true := by
      simpa [HNode.refsGe] using all1
    obtain ⟨i2, a2⟩ := alloc_inv _ i1 hrg
    exact ⟨i2, agreeBelow_trans a1 a2,
      by simpa [allocPJson, refGe, Heap.alloc] using i1.1⟩

theorem allocPList_inv (n0 : ℕ) : ∀ (ps : List PJson) (h : Heap), HeapInv n0 h →
    HeapInv n0 (allocPJsonList h ps).1 ∧ agreeBelow n0 h (allocPJsonList h ps).1
    ∧ (allocPJsonList h ps).2.all (refGe n0) = true
  | [], h, hI => ⟨hI, agreeBelow_refl _ _, rfl⟩
  | p :: ps, h, hI => by
    obtain ⟨i1, a1, r1⟩ := allocP_inv n0 p h hI
    obtain ⟨i2, a2, all2⟩ := allocPList_inv n0 ps (allocPJson h p).1 i1
    exact ⟨i2, agreeBelow_trans a1 a2,
      by simp [allocPJsonList, List.all_cons, r1, all2]⟩

theorem allocPFields_inv (n0 : ℕ) :
    ∀ (ps : List (String × PJson)) (h : Heap), HeapInv n0 h →
    HeapInv n0 (allocPJsonFields h ps).1
    ∧ agreeBelow n0 h (allocPJsonFields h ps).1
    ∧ (allocPJsonFields h ps).2.all (fun kv => refGe n0 kv.2) = true
  | [], h, hI => ⟨hI, agreeBelow_refl _ _, rfl⟩
  | kp :: ps, h, hI => by
    obtain ⟨i1, a1, r1⟩ := allocP_inv n0 kp.2 h hI
    obtain ⟨i2, a2, all2⟩ := allocPFields_inv n0 ps (allocPJson h kp.2).1 i1
    exact ⟨i2, agreeBelow_trans a1 a2,
      by simp [allocPJsonFields, List.all_cons, r1, all2]⟩

end

theorem forEach_inv (proj : ℚ × ℚ → ℚ × ℚ) (fuel : ℕ) (n0 : ℕ) :
    ∀ (feats : List HVal) (h h2 : Heap),
    HeapInv n0 h → feats.all (refGe n0) = true →
    forEachFeature proj fuel h feats = some h2 →
    HeapInv n0 h2 ∧ agreeBelow n0 h h2
  | [], h, h2, hI, _, hr => by
    simp only [forEachFeature] at hr
    cases hr
    exact ⟨hI, agreeBelow_refl _ _⟩
  | f :: fs, h, h2, hI, hall, hr => by
    simp only [List.all_cons, Bool.and_eq_true] at hall
    cases hg : fieldRead h f "geometry" with
    | none =>
      simp only [forEachFeature, hg] at hr
      cases hr
    | some gv =>
      have hgv : refGe n0 gv = true := fieldRead_refGe hI hall.1 hg
      cases htg : htruthy gv with
      | false =>
        have hr2 : forEachFeature proj fuel h fs = some h2 := by
          simpa only [forEachFeature, hg, htg, if_neg Bool.false_ne_true,
            Bool.false_eq_true, if_false] using hr
        exact forEach_inv proj fuel n0 fs h h2 hI hall.2 hr2
      | true =>
        cases hc : fieldRead h gv "coordinates" with
        | none =>
          simp only [forEachFeature, hg, htg, hc, if_true] at hr
          cases hr
        | some cv =>
          cases htc : htruthy cv with
          | false =>
            have hr2 : forEachFeature proj fuel h fs = some h2 := by
              simpa only [forEachFeature, hg, htg, hc, htc, if_true,
                Bool.false_eq_true, if_false] using hr
            exact forEach_inv proj fuel n0 fs h h2 hI hall.2 hr2
          | true =>
            cases htr : transformCoordinatesH proj fuel h cv with
            | none =>
              simp only [forEachFeature, hg, htg, hc, htc, htr, if_true] at hr
              cases hr
            | some r =>
              obtain ⟨hI1, hag1, hrg1⟩ :=
                (tch_inv proj n0 fuel).1 h cv r hI htr
              cases gv with
              | undefined => simp [htruthy] at htg
              | null => simp [htruthy] at htg
              | bool b =>
                simp only [forEachFeature, hg, htg, hc, htc, htr, if_true] at hr
                cases hr
              | num q =>
                simp only [forEachFeature, hg, htg, hc, htc, htr, if_true] at hr
                cases hr
              | str s =>
                simp only [forEachFeature, hg, htg, hc, htc, htr, if_true] at hr
                cases hr
              | ref ag =>
                have hag : n0 ≤ ag := by simpa [refGe] using hgv
                obtain ⟨hI2, hag2⟩ := setField_inv hI1 hag hrg1
                have hr2 : forEachFeature proj fuel
                    (setField r.1 ag "coordinates" r.2) fs = some h2 := by
                  simpa only [forEachFeature, hg, htg, hc, htc, htr,
                    if_true] using hr
                obtain ⟨hI3, hag3⟩ := forEach_inv proj fuel n0 fs
                  (setField r.1 ag "coordinates" r.2) h2 hI2 hall.2 hr2
                exact ⟨hI3,
                  agreeBelow_trans hag1 (agreeBelow_trans hag2 hag3)⟩


theorem readList_congr {f g : HVal → Option PJson} :
    ∀ es : List HVal, (∀ v ∈ es, f v = g v) → readList f es = readList g es
  | [], _ => rfl
  | v :: vs, hfg => by
    simp only [readList]
    rw [hfg v (List.mem_cons_self v vs),
      readList_congr vs (fun w hw => hfg w (List.mem_cons_of_mem v hw))]

theorem readFields_congr {f g : HVal → Option PJson} :
    ∀ fs : List (String × HVal), (∀ kv ∈ fs, f kv.2 = g kv.2) →
      readFields f fs = readFields g fs
  | [], _ => rfl
  | (k, v) :: vs, hfg => by
    simp only [readFields]
    rw [hfg (k, v) (List.mem_cons_self _ vs),
      readFields_congr vs (fun kv hkv => hfg kv (List.mem_cons_of_mem _ hkv))]

theorem readVal_agree (n0 : ℕ) (h h2 : Heap)
    (hag : agreeBelow n0 h h2)
    (hwf : ∀ i nd, i < n0 → h.get? i = some nd → nd.refsLt n0 = true) :
    ∀ fuel v, refLt n0 v = true → readVal h2 fuel v = readVal h fuel v := by
  intro fuel
  induction fuel with
  | zero => intro v _; cases v <;> rfl
  | succ f ih =>
    intro v hv
    cases v with
    | undefined => rfl
    | null => rfl
    | bool b => rfl
    | num q => rfl
    | str s => rfl
    | ref a =>
      have ha : a < n0 := by simpa [refLt] using hv
      have hg2 : h2.get? a = h.get? a := hag a ha
      cases hget : h.get? a with
      | none => simp only [readVal, hg2, hget]
      | some nd =>
        have hlt := hwf a nd ha hget
        cases nd with
        | arrN es =>
          have hels : ∀ w ∈ es, refLt n0 w = true := by
            simp only [HNode.refsLt] at hlt
            exact fun w hw => List.all_eq_true.mp hlt w hw
          simp only [readVal, hg2, hget]
          rw [readList_congr es (fun w hw => ih w (hels w hw))]
        | objN fs =>
          have hels : ∀ kv ∈ fs, refLt n0 kv.2 = true := by
            simp only [HNode.refsLt] at hlt
            exact fun kv hkv => List.all_eq_true.mp hlt kv hkv
          simp only [readVal, hg2, hget]
          rw [readFields_congr fs (fun kv hkv => ih kv.2 (hels kv hkv))]

/-- C3: `transformGeoJSON` does not mutate its argument.  For any heap and
any document value in it, a successful run leaves every pre-existing heap
object untouched (the heap agrees below the old allocation frontier), so
the input document reads back exactly as before the call at any depth; the
returned document is a fresh deep clone, referencing only objects
allocated by the call. -/
theorem transformGeoJSON_no_mutation (proj : ℚ × ℚ → ℚ × ℚ) (fuel : ℕ)
    (h : Heap) (g : HVal) (r : Heap × HVal)
    (hwf : h.wfB = true) (hg : refLt h.nodes.length g = true)
    (hr : transformGeoJSONH proj fuel h g = some r) :
    agreeBelow h.nodes.length h r.1
    ∧ (∀ fuel2, readVal r.1 fuel2 g = readVal h fuel2 g)
    ∧ refGe h.nodes.length r.2 = true
    ∧ regionClosed h.nodes.length r.1 := by
  have hI : HeapInv h.nodes.length h := ⟨le_refl _, regionClosed_init h⟩
  have hwf2 : ∀ i nd, i < h.nodes.length → h.get? i = some nd →
      nd.refsLt h.nodes.length = true := by
    intro i nd _ hget
    have hmem : nd ∈ h.nodes := List.getElem?_mem hget
    exact List.all_eq_true.mp (by simpa [Heap.wfB] using hwf) nd hmem
  suffices hS : HeapInv h.nodes.length r.1 ∧ agreeBelow h.nodes.length h r.1
      ∧ refGe h.nodes.length r.2 = true by
    exact ⟨hS.2.1, fun fuel2 => readVal_agree _ h r.1 hS.2.1 hwf2 fuel2 g hg,
      hS.2.2, hS.1.2⟩
  cases hrv : readVal h fuel g with
  | none =>
    simp only [transformGeoJSONH, hrv] at hr
    cases hr
  | some p =>
    obtain ⟨hI1, hag1, hrg1⟩ := allocP_inv h.nodes.length p h hI
    cases hfv : fieldRead (allocPJson h p).1 (allocPJson h p).2 "features" with
    | none =>
      simp only [transformGeoJSONH, hrv, hfv] at hr
      cases hr
    | some fv =>
      have hfg : refGe h.nodes.length fv = true := fieldRead_refGe hI1 hrg1 hfv
      cases htf : htruthy fv with
      | false =>
        simp only [transformGeoJSONH, hrv, hfv, htf, Bool.false_eq_true,
          if_false] at hr
        cases hr
        exact ⟨hI1, hag1, hrg1⟩
      | true =>
        cases fv with
        | undefined => simp [htruthy] at htf
        | null => simp [htruthy] at htf
        | bool b =>
          simp only [transformGeoJSONH, hrv, hfv, htf, if_true] at hr
          cases hr
        | num q =>
          simp only [transformGeoJSONH, hrv, hfv, htf, if_true] at hr
          cases hr
        | str s =>
          simp only [transformGeoJSONH, hrv, hfv, htf, if_true] at hr
          cases hr
        | ref af =>
          have haf : h.nodes.length ≤ af := by simpa [refGe] using hfg
          cases hget : (allocPJson h p).1.get? af with
          | none =>
            simp only [transformGeoJSONH, hrv, hfv, htf, if_true, hget] at hr
            cases hr
          | some nd =>
            cases nd with
            | objN fs =>
              simp only [transformGeoJSONH, hrv, hfv, htf, if_true, hget] at hr
              cases hr
            | arrN feats =>
              have hfeats : feats.all (refGe h.nodes.length) = true :=
                arr_elems_refGe hI1 haf hget
              cases hfe : forEachFeature proj fuel (allocPJson h p).1 feats with
              | none =>
                simp only [transformGeoJSONH, hrv, hfv, htf, if_true, hget,
                  hfe] at hr
                cases hr
              | some hh2 =>
                obtain ⟨hI2, hag2⟩ := forEach_inv proj fuel _ feats
                  (allocPJson h p).1 hh2 hI1 hfeats hfe
                simp only [transformGeoJSONH, hrv, hfv, htf, if_true, hget,
                  hfe] at hr
                cases hr
                exact ⟨hI2, agreeBelow_trans hag1 hag2, hrg1⟩

/-- Witness for `transformGeoJSON_no_mutation` on the concrete document. -/
theorem transformGeoJSON_no_mutation_witness :
    agreeBelow wheap.nodes.length wheap wres.1
    ∧ (∀ fuel2, readVal wres.1 fuel2 (.ref 5) = readVal wheap fuel2 (.ref 5))
    ∧ refGe wheap.nodes.length wres.2 = true
    ∧ regionClosed wheap.nodes.length wres.1 :=
  transformGeoJSON_no_mutation wproj 10 wheap (.ref 5) wres rfl rfl rfl

end WebMap
